import Mathlib

set_option linter.unusedVariables false

/-!
Shallow embedding of the Tendermint-style consensus core of the
evrynet-node repository, together with theorems checking the
natural-language specification against the code.

Files embedded:
- consensus/tendermint/core (state machine): enterNewRound, enterPropose
  call structure, defaultDoPrevote, enterPrecommit (stub), handlePrevote,
  handlePrecommit, handleTimeout, verifyProposal.
- consensus/tendermint/backend/staking: GetValSet.
- consensus/tendermint/core/messages.go: EncodeRLP / DecodeRLP over a
  byte-level model of the RLP wire format.

Machine integers are modelled as Nat/Int; Go byte slices as List Nat;
nil-able pointers as Option; fallible functions as Except/Option.
-/

/-- 32-byte digest, modelled abstractly. The all-zero sentinel
(`common.Hash{}` in the source, `H_nil` in the spec) is `0`. -/
def Hash : Type := Nat

instance : DecidableEq Hash := instDecidableEqNat
instance : Repr Hash := instReprNat
instance : OfNat Hash n := ⟨(n : Nat)⟩

/-- The empty block hash sentinel (`emptyBlockHash = common.Hash{}`). -/
def emptyBlockHash : Hash := 0

/-- 20-byte account identifier, modelled abstractly. -/
def Address : Type := Nat

instance : DecidableEq Address := instDecidableEqNat
instance : Repr Address := instReprNat
instance : OfNat Address n := ⟨(n : Nat)⟩

/-- A block, reduced to the two observations the consensus core makes of
it: `Number()` and `Hash()`. -/
structure Block where
  number : Nat
  hash : Hash
deriving DecidableEq, Repr

/-- `tendermint.Proposal`: { Block, Round, POLRound }. The block pointer
may be nil in a decoded proposal, hence `Option`. -/
structure Proposal where
  block : Option Block
  round : Int
  polRound : Int
deriving DecidableEq, Repr

/-- `tendermint.Vote`: { BlockNumber, Round, BlockHash }. `BlockHash` is a
pointer in the source and may be nil, hence `Option`. -/
structure Vote where
  blockNumber : Nat
  round : Int
  blockHash : Option Hash
deriving DecidableEq, Repr

/-- The round-step enumeration, in the total order the spec gives:
NewHeight < NewRound < Propose < Prevote < PrevoteWait < Precommit <
PrecommitWait < Commit. -/
inductive RoundStep where
  | NewHeight
  | NewRound
  | Propose
  | Prevote
  | PrevoteWait
  | Precommit
  | PrecommitWait
  | Commit
deriving DecidableEq, Repr

/-- Numeric rank of a step; the source compares steps as integers. -/
def RoundStep.toNat : RoundStep → Nat
  | .NewHeight => 0
  | .NewRound => 1
  | .Propose => 2
  | .Prevote => 3
  | .PrevoteWait => 4
  | .Precommit => 5
  | .PrecommitWait => 6
  | .Commit => 7

/-- The per-height mutable round state, restricted to the fields the
embedded functions read or write. -/
structure RoundState where
  blockNumber : Nat
  round : Int
  step : RoundStep
  proposalReceived : Option Proposal
  lockedRound : Int
  lockedBlock : Option Block
  validRound : Int
  validBlock : Option Block
deriving DecidableEq, Repr

/-- Modelled from the spec: `state.Unlock` (body not under src/) clears
the lock, setting locked_round to -1 and locked_block to nil. -/
def RoundState.unlock (s : RoundState) : RoundState :=
  { s with lockedRound := -1, lockedBlock := none }

/-- Modelled from the spec: `state.SetValidRoundAndBlock` (body not under
src/) assigns valid_round and valid_block. -/
def RoundState.setValidRoundAndBlock (s : RoundState) (r : Int) (b : Option Block) :
    RoundState :=
  { s with validRound := r, validBlock := b }

/-- Hash of the locked block. The source evaluates `lockedBlock.Hash()`
only under the guard `lockedRound != -1`, where the lock invariant makes
the block non-nil; the `none` default never matters under that guard. -/
def lockedBlockHash (s : RoundState) : Hash :=
  match s.lockedBlock with
  | some b => b.hash
  | none => emptyBlockHash

/-- Hash of a proposal's block; the source evaluates `p.Block.Hash()`. -/
def proposalBlockHash (p : Proposal) : Hash :=
  match p.block with
  | some b => b.hash
  | none => emptyBlockHash

/-- Outcome of the entry checks of the prevote/precommit handlers:
a nil block-hash pointer panics the node, a height mismatch drops the
message, otherwise the vote proceeds to admission. -/
inductive VoteCheck where
  | fatal
  | droppedHeight
  | proceed
deriving DecidableEq, Repr

/-- Entry checks of `handlePrevote` (staking_validators.go lines 203-213):
decode done, then `vote.BlockHash == nil` panics, then a block-number
mismatch returns nil (drop). -/
def handlePrevoteEntry (s : RoundState) (vote : Vote) : VoteCheck :=
  match vote.blockHash with
  | none => .fatal
  | some _ =>
    if vote.blockNumber ≠ s.blockNumber then .droppedHeight else .proceed

/-- Entry checks of `handlePrecommit` (staking_validators.go lines
296-304), identical in structure to those of `handlePrevote`. -/
def handlePrecommitEntry (s : RoundState) (vote : Vote) : VoteCheck :=
  match vote.blockHash with
  | none => .fatal
  | some _ =>
    if vote.blockNumber ≠ s.blockNumber then .droppedHeight else .proceed

/-- A fired timeout: `timeoutInfo { BlockNumber, Round, Step }` (the
duration field plays no role in dispatch). -/
structure TimeoutInfo where
  blockNumber : Nat
  round : Int
  step : RoundStep
deriving DecidableEq, Repr

/-- A state transition invoked by the dispatcher, recorded as data. -/
inductive Transition where
  | toNewRound (bn : Nat) (r : Int)
  | toPropose (bn : Nat) (r : Int)
  | toPrevote (bn : Nat) (r : Int)
  | toPrecommit (bn : Nat) (r : Int)
deriving DecidableEq, Repr

/-- Result of `handleTimeout`: a stale timeout is ignored, a valid one
dispatches a sequence of transitions, an unexpected step panics. -/
inductive TimeoutResult where
  | ignored
  | dispatched (ts : List Transition)
  | invalidStep
deriving DecidableEq, Repr

/-- `handleTimeout` (staking_validators.go lines 382-416): the stale
check, then the switch on the timeout's step. -/
def handleTimeout (s : RoundState) (ti : TimeoutInfo) : TimeoutResult :=
  if ti.blockNumber ≠ s.blockNumber ∨ ti.round < s.round ∨
      (ti.round = s.round ∧ ti.step.toNat < s.step.toNat) then
    .ignored
  else
    match ti.step with
    | .NewHeight => .dispatched [.toNewRound ti.blockNumber 0]
    | .NewRound => .dispatched [.toPropose ti.blockNumber 0]
    | .Propose => .dispatched [.toPrevote ti.blockNumber ti.round]
    | .PrevoteWait => .dispatched [.toPrecommit ti.blockNumber ti.round]
    | .PrecommitWait =>
        .dispatched [.toPrecommit ti.blockNumber ti.round,
                     .toNewRound ti.blockNumber (ti.round + 1)]
    | _ => .invalidStep

/-- Staleness predicate of the timeout dispatcher, exactly as the claim
and the source state it. -/
def staleTimeout (s : RoundState) (ti : TimeoutInfo) : Prop :=
  ti.blockNumber ≠ s.blockNumber ∨ ti.round < s.round ∨
    (ti.round = s.round ∧ ti.step.toNat < s.step.toNat)

instance (s : RoundState) (ti : TimeoutInfo) : Decidable (staleTimeout s ti) := by
  unfold staleTimeout; infer_instance

/-- `defaultDoPrevote` (wizard_genesis_sc.go lines 349-375), returning
the list of `SendVote(msgPrevote, block, round)` calls it makes, each
with the block argument it passes. -/
def defaultDoPrevote (s : RoundState) : List (Option Block) :=
  if s.lockedRound ≠ -1 then [s.lockedBlock]
  else
    match s.proposalReceived with
    | none => [none]
    | some p => [p.block]

/-- Modelled from the spec: `SendVote` (body not under src/) encodes a
nil block argument as a vote for the empty block hash `H_nil`, and a
non-nil block as a vote for that block's hash. -/
def sendVoteHash : Option Block → Hash
  | none => emptyBlockHash
  | some b => b.hash

/-- Error results of `verifyProposal`. Signature-recovery failures
propagate the underlying error, modelled by a numeric code. -/
inductive ProposalError where
  | invalidPOLRound
  | invalidSignature
  | emptyBlock
  | sigRecover (e : Nat)
deriving DecidableEq, Repr

/-- `verifyProposal` (staking_validators.go lines 137-160). The POLRound
condition is transcribed exactly as written in the source:
`POLRound < -1 && (POLRound >= 0) && POLRound >= Round`. The signature
recovery `msg.GetAddressFromSignature()` is external crypto and is passed
in as its result; `proposerAddr` is `c.valSet.GetProposer().Address()`. -/
def verifyProposal (proposerAddr : Address) (signerResult : Except Nat Address)
    (proposal : Proposal) : Except ProposalError Unit :=
  if proposal.polRound < -1 ∧ 0 ≤ proposal.polRound ∧
      proposal.round ≤ proposal.polRound then
    .error .invalidPOLRound
  else
    match signerResult with
    | .error e => .error (.sigRecover e)
    | .ok signer =>
      if proposerAddr ≠ signer then .error .invalidSignature
      else
        match proposal.block with
        | none => .error .emptyBlock
        | some b =>
          if b.hash = emptyBlockHash then .error .emptyBlock else .ok ()

/-- The validator set, modelled by its ordered address list and the
cached index of the current proposer. -/
structure ValidatorSet where
  addresses : List Address
  proposerIdx : Nat
deriving DecidableEq, Repr

/-- Modelled from the spec: `valSet.GetProposer()` returns the validator
at the cached proposer index. -/
def ValidatorSet.getProposerAddr (vs : ValidatorSet) : Address :=
  vs.addresses.getD vs.proposerIdx 0

/-- Modelled from the spec: `valSet.CalcProposer(prev_proposer_addr,
round)` — deterministic round-robin, next proposer index =
(index_of(prev_proposer) + round) mod set size. -/
def ValidatorSet.calcProposer (vs : ValidatorSet) (prevAddr : Address) (round : Int) :
    ValidatorSet :=
  { vs with
    proposerIdx :=
      (((vs.addresses.indexOf prevAddr : Nat) + round).emod
        (vs.addresses.length : Int)).toNat }

/-- Core state: round state plus the validator set the core holds. -/
structure CoreState where
  state : RoundState
  valSet : ValidatorSet
deriving DecidableEq, Repr

/-- Side effects emitted by the embedded transitions, recorded as data. -/
inductive CoreAction where
  | enterProposeCall (bn : Nat) (r : Int)
  | broadcastPrecommit (h : Hash)
deriving DecidableEq, Repr

/-- `enterPrecommit` (wizard_genesis_sc.go lines 457-459). The body in
the source is empty: `//TODO: implement this`. It changes nothing and
emits nothing. -/
def enterPrecommit (c : CoreState) (blockNumber : Nat) (round : Int) :
    CoreState × List CoreAction :=
  (c, [])

/-- Modelled from the spec: the guard of enterPrecommit ("Guard
analogous"): same height, round at least current, and not already at or
past Precommit in the same round. -/
def precommitGuardHolds (c : CoreState) (bn : Nat) (r : Int) : Prop :=
  c.state.blockNumber = bn ∧ c.state.round ≤ r ∧
    ¬(c.state.round = r ∧ RoundStep.Precommit.toNat ≤ c.state.step.toNat)

instance (c : CoreState) (bn : Nat) (r : Int) : Decidable (precommitGuardHolds c bn r) := by
  unfold precommitGuardHolds; infer_instance

/-- `enterNewRound` (wizard_genesis_sc.go lines 207-245): the guard, the
conditional proposer adjustment via `CalcProposer(currentProposer, round)`,
`UpdateRoundStep(round, NewRound)`, the round-0 reset of the valid
round/block, and the tail call to `enterPropose`. -/
def enterNewRound (c : CoreState) (blockNumber : Nat) (round : Int) :
    CoreState × List CoreAction :=
  let s := c.state
  if s.blockNumber ≠ blockNumber ∨ round < s.round ∨
      (s.round = round ∧ s.step ≠ RoundStep.NewHeight) then
    (c, [])
  else
    let c1 :=
      if s.round < round then
        { c with valSet := c.valSet.calcProposer c.valSet.getProposerAddr round }
      else c
    let s1 := { c1.state with round := round, step := RoundStep.NewRound }
    let s2 := if round = 0 then s1.setValidRoundAndBlock (-1) none else s1
    ({ c1 with state := s2 }, [CoreAction.enterProposeCall blockNumber round])

/-- The body of `handlePrevote` executed when the newly admitted prevote
yields a two-thirds majority `hmaj` in `prevotes[vote.Round]`
(staking_validators.go lines 229-252): the unlock-on-POL rule followed by
the valid-block update. -/
def prevoteMajorityUpdate (s : RoundState) (voteRound : Int) (hmaj : Hash) :
    RoundState :=
  let s1 :=
    if s.lockedRound ≠ -1 ∧ s.lockedRound < voteRound ∧ voteRound ≤ s.round ∧
        lockedBlockHash s ≠ hmaj then
      s.unlock
    else s
  if hmaj ≠ emptyBlockHash ∧ s1.validRound < voteRound ∧ voteRound = s1.round then
    match s1.proposalReceived with
    | some p =>
      if proposalBlockHash p = hmaj then
        s1.setValidRoundAndBlock voteRound p.block
      else
        { s1 with proposalReceived := none }
    | none => { s1 with proposalReceived := none }
  else s1

/-- Header, reduced to what `GetValSet` observes: its hash and its
extra-data bytes. -/
structure TdmHeader where
  hash : Hash
  extra : List Nat
deriving DecidableEq, Repr

/-- `types.TendermintExtra`, reduced to the `ValidatorAdds` byte field
(an RLP-encoded address list). -/
structure TendermintExtra where
  validatorAdds : List Nat
deriving DecidableEq, Repr

/-- Error results of `GetValSet`. Extra-data extraction and RLP decode
failures propagate the underlying error, modelled by a numeric code. -/
inductive ValSetError where
  | unknownBlock
  | emptyValSet
  | extraDataErr (e : Nat)
  | decodeErr (e : Nat)
deriving DecidableEq, Repr

/-- Modelled from the spec: `utils.GetCheckpointNumber` (body not under
src/) — for height H the checkpoint is `H − (H mod Epoch)`. -/
def getCheckpointNumber (epoch : Nat) (number : Nat) : Nat :=
  number - number % epoch

/-- `GetValSet` (staking_validators.go lines 29-57). The chain reader,
`types.ExtractTendermintExtra` and `rlp.DecodeBytes` are external and are
passed in as functions; errors from the latter two propagate. A header
that is nil or whose hash is the zero hash counts as an unknown block,
exactly as in the source. The result models
`validator.NewSet(validatorAdds, RoundRobin, blockNumber)` by the decoded
address list. -/
def GetValSet (epoch : Nat) (chain : Nat → Option TdmHeader)
    (extract : List Nat → Except Nat TendermintExtra)
    (decodeAddrs : List Nat → Except Nat (List Address)) (number : Nat) :
    Except ValSetError (List Address) :=
  match chain (getCheckpointNumber epoch number) with
  | none => .error .unknownBlock
  | some header =>
    if header.hash = emptyBlockHash then .error .unknownBlock
    else
      match extract header.extra with
      | .error e => .error (.extraDataErr e)
      | .ok extra =>
        if extra.validatorAdds = [] then .error .emptyValSet
        else
          match decodeAddrs extra.validatorAdds with
          | .error e => .error (.decodeErr e)
          | .ok addrs => .ok addrs

/-- Minimal big-endian byte representation of a natural number (the RLP
integer encoding used by the rlp package; 0 encodes to the empty
string). -/
def natBE (n : Nat) : List Nat :=
  if h : n = 0 then []
  else natBE (n / 256) ++ [n % 256]
termination_by n
decreasing_by exact Nat.div_lt_self (Nat.pos_of_ne_zero h) (by norm_num)

/-- Big-endian value of a byte string. -/
def beVal (l : List Nat) : Nat :=
  l.foldl (fun a b => a * 256 + b) 0

/-- Is the string a single byte below 0x80 (encoded as itself in RLP)? -/
def isSingleLow : List Nat → Bool
  | [b] => b < 0x80
  | _ => false

/-- RLP encoding of a byte string, per the RLP wire format the rlp
package implements (Modelled from the spec: the canonical length-prefixed
structural encoding; the rlp library is not under src/). -/
def encStr (s : List Nat) : List Nat :=
  if isSingleLow s then s
  else if s.length ≤ 55 then (0x80 + s.length) :: s
  else (0xb7 + (natBE s.length).length) :: (natBE s.length ++ s)

/-- The consensus `message` of messages.go: the 5-tuple
(Code, Msg, Address, Signature, CommittedSeal). Here the address is kept
at byte granularity (20 bytes) because the codec serializes it. -/
structure message where
  code : Nat
  msg : List Nat
  address : List Nat
  signature : List Nat
  committedSeal : List Nat
deriving DecidableEq, Repr

/-- Concatenated RLP encodings of the five fields of a message, in the
order EncodeRLP writes them: Code, Msg, Address, Signature,
CommittedSeal. -/
def encMsgPayload (m : message) : List Nat :=
  encStr (natBE m.code) ++ encStr m.msg ++ encStr m.address ++
    encStr m.signature ++ encStr m.committedSeal

/-- `EncodeRLP` (messages.go lines 44-46):
`rlp.Encode(w, []interface{}{m.Code, m.Msg, m.Address, m.Signature,
m.CommittedSeal})` — the RLP list of the five fields, rendered to bytes
by the rlp wire format. -/
def EncodeRLP (m : message) : List Nat :=
  let p := encMsgPayload m
  if p.length ≤ 55 then (0xc0 + p.length) :: p
  else (0xf7 + (natBE p.length).length) :: (natBE p.length ++ p)

/-- RLP string decoder: reads one byte string off the stream, returning
it and the remaining stream. Enforces the canonical-form checks the rlp
package performs (single low byte must be encoded as itself, no leading
zeros in a long length, long form only above 55 bytes). -/
def decStr (input : List Nat) : Option (List Nat × List Nat) :=
  match input with
  | [] => none
  | b :: rest =>
    if b < 0x80 then some ([b], rest)
    else if b ≤ 0xb7 then
      let len := b - 0x80
      if rest.length < len then none
      else if len = 1 ∧ rest.headD 0 < 0x80 then none
      else some (rest.take len, rest.drop len)
    else if b ≤ 0xbf then
      let lenlen := b - 0xb7
      if rest.length < lenlen then none
      else
        let lenBytes := rest.take lenlen
        if lenBytes.headD 1 = 0 then none
        else
          let len := beVal lenBytes
          if len ≤ 55 then none
          else
            let rest2 := rest.drop lenlen
            if rest2.length < len then none
            else some (rest2.take len, rest2.drop len)
    else none

/-- Decode a uint64 from its RLP string bytes, as the rlp package does:
at most 8 bytes, no leading zero byte. -/
def decU64 (s : List Nat) : Option Nat :=
  if s.length > 8 then none
  else
    match s with
    | [] => some 0
    | b :: _ => if b = 0 then none else some (beVal s)

/-- Decode the five fields of a message from the list payload, in order,
requiring the payload to be fully consumed (the rlp package rejects
trailing elements), the code to be a canonical uint64, and the address to
be exactly 20 bytes (it decodes into a `[20]byte`). -/
def decodeFields (p : List Nat) : Option message :=
  match decStr p with
  | none => none
  | some (s1, r1) =>
    match decStr r1 with
    | none => none
    | some (s2, r2) =>
      match decStr r2 with
      | none => none
      | some (s3, r3) =>
        match decStr r3 with
        | none => none
        | some (s4, r4) =>
          match decStr r4 with
          | none => none
          | some (s5, r5) =>
            if r5 = [] then
              match decU64 s1 with
              | none => none
              | some code =>
                if s3.length = 20 then some ⟨code, s2, s3, s4, s5⟩ else none
            else none

/-- `DecodeRLP` (messages.go lines 49-63): `s.Decode(&msg)` reads one RLP
list holding the five fields and assigns them. The whole input must be
one list (canonical header, exact length) whose items are the five
fields. -/
def DecodeRLP (input : List Nat) : Option message :=
  match input with
  | [] => none
  | b :: rest =>
    if b < 0xc0 then none
    else if b ≤ 0xf7 then
      if rest.length = b - 0xc0 then decodeFields rest else none
    else
      if rest.length < b - 0xf7 then none
      else if (rest.take (b - 0xf7)).headD 1 = 0 then none
      else if beVal (rest.take (b - 0xf7)) ≤ 55 then none
      else if (rest.drop (b - 0xf7)).length = beVal (rest.take (b - 0xf7)) then
        decodeFields (rest.drop (b - 0xf7))
      else none

/-- The first statement of the majority branch of `handlePrevote`
(staking_validators.go lines 237-240): the unlock-on-POL rule. -/
def prevoteUnlockStep (s : RoundState) (voteRound : Int) (hmaj : Hash) : RoundState :=
  if s.lockedRound ≠ -1 ∧ s.lockedRound < voteRound ∧ voteRound ≤ s.round ∧
      lockedBlockHash s ≠ hmaj then
    s.unlock
  else s

/-- The second statement of the majority branch of `handlePrevote`
(staking_validators.go lines 243-251): the valid-block update. -/
def prevoteValidBlockStep (s1 : RoundState) (voteRound : Int) (hmaj : Hash) :
    RoundState :=
  if hmaj ≠ emptyBlockHash ∧ s1.validRound < voteRound ∧ voteRound = s1.round then
    match s1.proposalReceived with
    | some p =>
      if proposalBlockHash p = hmaj then
        s1.setValidRoundAndBlock voteRound p.block
      else
        { s1 with proposalReceived := none }
    | none => { s1 with proposalReceived := none }
  else s1

theorem prevoteMajorityUpdate_eq_steps (s : RoundState) (voteRound : Int) (hmaj : Hash) :
    prevoteMajorityUpdate s voteRound hmaj =
      prevoteValidBlockStep (prevoteUnlockStep s voteRound hmaj) voteRound hmaj := by
  unfold prevoteMajorityUpdate prevoteUnlockStep prevoteValidBlockStep
  split <;> rfl

theorem prevoteValidBlockStep_locked (s1 : RoundState) (voteRound : Int) (hmaj : Hash) :
    (prevoteValidBlockStep s1 voteRound hmaj).lockedRound = s1.lockedRound ∧
    (prevoteValidBlockStep s1 voteRound hmaj).lockedBlock = s1.lockedBlock := by
  unfold prevoteValidBlockStep
  split
  · split
    · split <;> simp [RoundState.setValidRoundAndBlock]
    · simp
  · exact ⟨rfl, rfl⟩

theorem prevoteUnlockStep_preserves (s : RoundState) (voteRound : Int) (hmaj : Hash) :
    (prevoteUnlockStep s voteRound hmaj).validRound = s.validRound ∧
    (prevoteUnlockStep s voteRound hmaj).round = s.round ∧
    (prevoteUnlockStep s voteRound hmaj).proposalReceived = s.proposalReceived := by
  unfold prevoteUnlockStep
  split <;> simp [RoundState.unlock]

/-- C5: in the majority branch of handle_prevote, the node unlocks
exactly when locked_round ≠ -1, locked_round < vote.round ≤
current.round, and locked_block.hash ≠ h_maj; in every other case the
lock is unchanged by this code. -/
theorem handlePrevote_unlock_rule (s : RoundState) (voteRound : Int) (hmaj : Hash)
    (hinv : s.lockedRound = -1 ↔ s.lockedBlock = none) :
    ((s.lockedRound ≠ -1 ∧ s.lockedRound < voteRound ∧ voteRound ≤ s.round ∧
        lockedBlockHash s ≠ hmaj) →
      (prevoteMajorityUpdate s voteRound hmaj).lockedRound = -1 ∧
      (prevoteMajorityUpdate s voteRound hmaj).lockedBlock = none) ∧
    (¬(s.lockedRound ≠ -1 ∧ s.lockedRound < voteRound ∧ voteRound ≤ s.round ∧
        lockedBlockHash s ≠ hmaj) →
      (prevoteMajorityUpdate s voteRound hmaj).lockedRound = s.lockedRound ∧
      (prevoteMajorityUpdate s voteRound hmaj).lockedBlock = s.lockedBlock) := by
  rw [prevoteMajorityUpdate_eq_steps] at *
  obtain ⟨h1, h2⟩ :=
    prevoteValidBlockStep_locked (prevoteUnlockStep s voteRound hmaj) voteRound hmaj
  constructor
  · intro h
    rw [h1, h2]
    unfold prevoteUnlockStep
    rw [if_pos h]
    exact ⟨rfl, rfl⟩
  · intro h
    rw [h1, h2]
    unfold prevoteUnlockStep
    rw [if_neg h]
    exact ⟨rfl, rfl⟩

theorem handlePrevote_unlock_rule_witness :
    ((0 : Int) ≠ -1 ∧ (0 : Int) < 1 ∧ (1 : Int) ≤ 1 ∧
      lockedBlockHash ⟨1, 1, RoundStep.Prevote, none, 0, some ⟨1, 5⟩, -1, none⟩ ≠ (9 : Hash)) ∧
    (prevoteMajorityUpdate ⟨1, 1, RoundStep.Prevote, none, 0, some ⟨1, 5⟩, -1, none⟩ 1 9).lockedRound = -1 ∧
    (prevoteMajorityUpdate ⟨1, 1, RoundStep.Prevote, none, 0, some ⟨1, 5⟩, -1, none⟩ 1 9).lockedBlock = none :=
  ⟨by decide,
    (handlePrevote_unlock_rule ⟨1, 1, RoundStep.Prevote, none, 0, some ⟨1, 5⟩, -1, none⟩ 1 9
      (by decide)).1 (by decide)⟩

/-- C6: in the majority branch of handle_prevote, under h_maj ≠ H_nil,
valid_round < vote.round and vote.round = current.round: a matching
received proposal sets valid_(round, block); otherwise proposal_received
is cleared. -/
theorem handlePrevote_validBlock_rule (s : RoundState) (voteRound : Int) (hmaj : Hash)
    (hcond : hmaj ≠ emptyBlockHash ∧ s.validRound < voteRound ∧ voteRound = s.round) :
    (∀ p, s.proposalReceived = some p → proposalBlockHash p = hmaj →
      (prevoteMajorityUpdate s voteRound hmaj).validRound = voteRound ∧
      (prevoteMajorityUpdate s voteRound hmaj).validBlock = p.block) ∧
    (s.proposalReceived = none →
      (prevoteMajorityUpdate s voteRound hmaj).proposalReceived = none) ∧
    (∀ p, s.proposalReceived = some p → proposalBlockHash p ≠ hmaj →
      (prevoteMajorityUpdate s voteRound hmaj).proposalReceived = none) := by
  rw [prevoteMajorityUpdate_eq_steps]
  obtain ⟨hv, hr, hp⟩ := prevoteUnlockStep_preserves s voteRound hmaj
  have hcond1 : hmaj ≠ emptyBlockHash ∧
      (prevoteUnlockStep s voteRound hmaj).validRound < voteRound ∧
      voteRound = (prevoteUnlockStep s voteRound hmaj).round := by
    rw [hv, hr]; exact hcond
  refine ⟨?_, ?_, ?_⟩
  · intro p hps hmatch
    unfold prevoteValidBlockStep
    rw [if_pos hcond1, hp, hps]
    simp [hmatch, RoundState.setValidRoundAndBlock]
  · intro hps
    unfold prevoteValidBlockStep
    rw [if_pos hcond1, hp, hps]
  · intro p hps hmatch
    unfold prevoteValidBlockStep
    rw [if_pos hcond1, hp, hps]
    simp [hmatch]

theorem handlePrevote_validBlock_rule_witness :
    ((9 : Hash) ≠ emptyBlockHash ∧ (-1 : Int) < 1 ∧ (1 : Int) = 1) ∧
    (prevoteMajorityUpdate ⟨1, 1, RoundStep.Prevote, some ⟨some ⟨1, 9⟩, 1, -1⟩, -1, none, -1, none⟩ 1 9).validRound = 1 ∧
    (prevoteMajorityUpdate ⟨1, 1, RoundStep.Prevote, some ⟨some ⟨1, 9⟩, 1, -1⟩, -1, none, -1, none⟩ 1 9).validBlock = some ⟨1, 9⟩ :=
  ⟨by decide,
    (handlePrevote_validBlock_rule ⟨1, 1, RoundStep.Prevote, some ⟨some ⟨1, 9⟩, 1, -1⟩, -1, none, -1, none⟩ 1 9
      (by decide)).1 ⟨some ⟨1, 9⟩, 1, -1⟩ rfl (by decide)⟩

/-- C7: the default prevote selector broadcasts exactly one prevote,
chosen by the first matching rule: the locked block if locked, else
H_nil if no proposal was received, else the received proposal's block. -/
theorem defaultDoPrevote_selector (s : RoundState)
    (hinv : s.lockedRound = -1 ↔ s.lockedBlock = none) :
    (s.lockedRound ≠ -1 →
      ∃ lb, s.lockedBlock = some lb ∧ defaultDoPrevote s = [some lb] ∧
        sendVoteHash (some lb) = lb.hash) ∧
    (s.lockedRound = -1 → s.proposalReceived = none →
      defaultDoPrevote s = [none] ∧ sendVoteHash none = emptyBlockHash) ∧
    (∀ p, s.lockedRound = -1 → s.proposalReceived = some p →
      defaultDoPrevote s = [p.block]) := by
  refine ⟨?_, ?_, ?_⟩
  · intro h
    rcases hb : s.lockedBlock with _ | lb
    · exact absurd (hinv.mpr hb) h
    · refine ⟨lb, rfl, ?_, rfl⟩
      unfold defaultDoPrevote
      rw [if_pos h, hb]
  · intro h hp
    constructor
    · unfold defaultDoPrevote
      rw [if_neg (by simp [h]), hp]
    · rfl
  · intro p h hp
    unfold defaultDoPrevote
    rw [if_neg (by simp [h]), hp]

theorem defaultDoPrevote_selector_witness :
    defaultDoPrevote ⟨1, 0, RoundStep.Prevote, none, -1, none, -1, none⟩ = [none] ∧
    sendVoteHash none = emptyBlockHash :=
  (defaultDoPrevote_selector ⟨1, 0, RoundStep.Prevote, none, -1, none, -1, none⟩
    (by decide)).2.1 rfl rfl

/-- C8: a decoded prevote or precommit whose block-hash field is nil is a
fatal invariant violation in both handlers, before any height or round
consideration. -/
theorem voteNilBlockHash_fatal (s : RoundState) (v : Vote) (h : v.blockHash = none) :
    handlePrevoteEntry s v = .fatal ∧ handlePrecommitEntry s v = .fatal := by
  unfold handlePrevoteEntry handlePrecommitEntry
  rw [h]
  exact ⟨rfl, rfl⟩

theorem voteNilBlockHash_fatal_witness :
    handlePrevoteEntry ⟨1, 0, RoundStep.NewHeight, none, -1, none, -1, none⟩ ⟨2, 3, none⟩ = .fatal ∧
    handlePrecommitEntry ⟨1, 0, RoundStep.NewHeight, none, -1, none, -1, none⟩ ⟨2, 3, none⟩ = .fatal :=
  voteNilBlockHash_fatal ⟨1, 0, RoundStep.NewHeight, none, -1, none, -1, none⟩ ⟨2, 3, none⟩ rfl

/-- A state in which the enterPrecommit guard holds: height 1, round 0,
step PrevoteWait, a lock held on a block. -/
def cexPrecommitState : CoreState :=
  ⟨⟨1, 0, RoundStep.PrevoteWait, none, 0, some ⟨1, 5⟩, -1, none⟩, ⟨[10, 20, 30, 40], 0⟩⟩

/-- C1: the enterPrecommit guard holds at this state, yet the call
changes nothing and emits nothing — the source body is the empty stub
`//TODO: implement this` — so no precommit is broadcast, the lock is not
cleared, and the step does not become Precommit. -/
theorem enterPrecommit_stub_is_noop :
    precommitGuardHolds cexPrecommitState 1 0 ∧
    enterPrecommit cexPrecommitState 1 0 = (cexPrecommitState, []) ∧
    (enterPrecommit cexPrecommitState 1 0).1.state.step ≠ RoundStep.Precommit ∧
    (enterPrecommit cexPrecommitState 1 0).1.state.lockedRound = 0 :=
  ⟨by decide, rfl, by decide, rfl⟩

/-- A decoded proposal whose pol_round (-2) lies outside
{-1} ∪ [0, round). -/
def badPOLProposal : Proposal := ⟨some ⟨1, 7⟩, 0, -2⟩

/-- C2: the proposal's pol_round is out of range, yet verifyProposal
accepts it: the source condition `POLRound < -1 && POLRound >= 0 && ...`
is unsatisfiable, so ErrInvalidProposalPOLRound is never returned. -/
theorem verifyProposal_accepts_invalid_polRound :
    (badPOLProposal.polRound < -1 ∨
      (0 ≤ badPOLProposal.polRound ∧ badPOLProposal.round ≤ badPOLProposal.polRound)) ∧
    verifyProposal 5 (Except.ok 5) badPOLProposal = Except.ok () :=
  ⟨by decide, rfl⟩

/-- A core state at round 1 with proposer index 0 over four validators. -/
def cexNewRoundState : CoreState :=
  ⟨⟨1, 1, RoundStep.Propose, none, -1, none, -1, none⟩, ⟨[10, 20, 30, 40], 0⟩⟩

/-- C3 counterexample: entering round 2 from round 1 moves the proposer
index from 0 to (0 + 2) mod 4 = 2, not to (0 + (2 − 1)) mod 4 = 1 as the
claim predicts: the source passes the absolute round to CalcProposer,
not the round difference. -/
theorem enterNewRound_proposer_cex :
    cexNewRoundState.state.round = 1 ∧
    cexNewRoundState.state.blockNumber = 1 ∧
    (enterNewRound cexNewRoundState 1 2).1.valSet.proposerIdx = 2 ∧
    (cexNewRoundState.valSet.proposerIdx + ((2 : Int) - cexNewRoundState.state.round).toNat) %
      cexNewRoundState.valSet.addresses.length = 1 ∧
    (2 : Nat) ≠ 1 := by
  refine ⟨rfl, rfl, by decide, by decide, by decide⟩

/-- C3 amended: for enterNewRound(h, r) with matching height and
r > current.round, the proposer index after the call equals
(index of the proposer before the call + r) mod set size — the advance
is by the absolute target round, not by (r − current.round). -/
theorem enterNewRound_proposer_amended (c : CoreState) (bn : Nat) (r : Int)
    (hbn : c.state.blockNumber = bn) (hr : c.state.round < r)
    (hnodup : c.valSet.addresses.Nodup)
    (hidx : c.valSet.proposerIdx < c.valSet.addresses.length) :
    (enterNewRound c bn r).1.valSet.proposerIdx =
      (((c.valSet.proposerIdx : Int) + r).emod (c.valSet.addresses.length : Int)).toNat := by
  unfold enterNewRound
  rw [if_neg]
  · rw [if_pos hr]
    show (c.valSet.calcProposer c.valSet.getProposerAddr r).proposerIdx = _
    unfold ValidatorSet.calcProposer ValidatorSet.getProposerAddr
    have hgd : c.valSet.addresses.getD c.valSet.proposerIdx 0 =
        c.valSet.addresses[c.valSet.proposerIdx] :=
      List.getD_eq_getElem _ _ hidx
    rw [hgd, List.indexOf_getElem hnodup _ hidx]
  · push_neg
    refine ⟨hbn, by omega, ?_⟩
    intro heq
    omega

theorem enterNewRound_proposer_amended_witness :
    (enterNewRound cexNewRoundState 1 2).1.valSet.proposerIdx =
      (((cexNewRoundState.valSet.proposerIdx : Int) + 2).emod
        (cexNewRoundState.valSet.addresses.length : Int)).toNat :=
  enterNewRound_proposer_amended cexNewRoundState 1 2 rfl (by decide) (by decide) (by decide)

/-- C4: the timeout dispatcher ignores exactly the stale timeouts, and a
non-stale timeout dispatches per the table: NewHeight → enterNewRound(h, 0),
NewRound → enterPropose(h, 0), Propose → enterPrevote(h, r),
PrevoteWait → enterPrecommit(h, r), PrecommitWait → enterPrecommit(h, r)
then enterNewRound(h, r+1). -/
theorem handleTimeout_dispatch (s : RoundState) (ti : TimeoutInfo) :
    (staleTimeout s ti → handleTimeout s ti = .ignored) ∧
    (¬staleTimeout s ti →
      (ti.step = .NewHeight →
        handleTimeout s ti = .dispatched [.toNewRound ti.blockNumber 0]) ∧
      (ti.step = .NewRound →
        handleTimeout s ti = .dispatched [.toPropose ti.blockNumber 0]) ∧
      (ti.step = .Propose →
        handleTimeout s ti = .dispatched [.toPrevote ti.blockNumber ti.round]) ∧
      (ti.step = .PrevoteWait →
        handleTimeout s ti = .dispatched [.toPrecommit ti.blockNumber ti.round]) ∧
      (ti.step = .PrecommitWait →
        handleTimeout s ti = .dispatched [.toPrecommit ti.blockNumber ti.round,
          .toNewRound ti.blockNumber (ti.round + 1)])) := by
  unfold handleTimeout staleTimeout
  constructor
  · intro h
    rw [if_pos h]
  · intro h
    rw [if_neg h]
    refine ⟨?_, ?_, ?_, ?_, ?_⟩ <;> intro hstep <;> rw [hstep]

theorem handleTimeout_dispatch_witness :
    handleTimeout ⟨1, 0, RoundStep.Prevote, none, -1, none, -1, none⟩
        ⟨1, 0, RoundStep.PrevoteWait⟩ =
      .dispatched [.toPrecommit 1 0] :=
  ((handleTimeout_dispatch ⟨1, 0, RoundStep.Prevote, none, -1, none, -1, none⟩
    ⟨1, 0, RoundStep.PrevoteWait⟩).2 (by decide)).2.2.2.1 rfl

/-- C9: GetValSet resolves the set from the checkpoint header at
H − (H mod Epoch); an absent (or zero-hash) checkpoint header yields
UnknownBlock, extraction errors propagate, an empty extracted
validator-address field yields EmptyValSet, RLP decode errors propagate,
and otherwise the set built from the decoded addresses is returned. -/
theorem GetValSet_cases (epoch number : Nat) (chain : Nat → Option TdmHeader)
    (extract : List Nat → Except Nat TendermintExtra)
    (decodeAddrs : List Nat → Except Nat (List Address)) :
    getCheckpointNumber epoch number = number - number % epoch ∧
    (chain (getCheckpointNumber epoch number) = none →
      GetValSet epoch chain extract decodeAddrs number = .error .unknownBlock) ∧
    (∀ h, chain (getCheckpointNumber epoch number) = some h →
      (h.hash = emptyBlockHash →
        GetValSet epoch chain extract decodeAddrs number = .error .unknownBlock) ∧
      (h.hash ≠ emptyBlockHash →
        (∀ e, extract h.extra = .error e →
          GetValSet epoch chain extract decodeAddrs number = .error (.extraDataErr e)) ∧
        (∀ ex, extract h.extra = .ok ex →
          (ex.validatorAdds = [] →
            GetValSet epoch chain extract decodeAddrs number = .error .emptyValSet) ∧
          (ex.validatorAdds ≠ [] →
            (∀ e, decodeAddrs ex.validatorAdds = .error e →
              GetValSet epoch chain extract decodeAddrs number = .error (.decodeErr e)) ∧
            (∀ addrs, decodeAddrs ex.validatorAdds = .ok addrs →
              GetValSet epoch chain extract decodeAddrs number = .ok addrs))))) := by
  refine ⟨rfl, ?_, ?_⟩
  · intro h
    unfold GetValSet
    rw [h]
  · intro hd hchain
    constructor
    · intro hz
      unfold GetValSet
      rw [hchain]
      simp [hz]
    · intro hz
      constructor
      · intro e he
        unfold GetValSet
        rw [hchain]
        simp [hz, he]
      · intro ex hex
        refine ⟨?_, ?_⟩
        · intro hemp
          unfold GetValSet
          rw [hchain]
          simp [hz, hex, hemp]
        · intro hne
          constructor
          · intro e he
            unfold GetValSet
            rw [hchain]
            simp [hz, hex, hne, he]
          · intro addrs ha
            unfold GetValSet
            rw [hchain]
            simp [hz, hex, hne, ha]

theorem GetValSet_cases_witness :
    GetValSet 10 (fun n => if n = 20 then some ⟨5, [1]⟩ else none)
      (fun _ => .ok ⟨[7]⟩) (fun _ => .ok [3, 4]) 25 = .ok [3, 4] :=
  (((((GetValSet_cases 10 25 (fun n => if n = 20 then some ⟨5, [1]⟩ else none)
      (fun _ => .ok ⟨[7]⟩) (fun _ => .ok [3, 4])).2.2 ⟨5, [1]⟩ rfl).2
      (by decide)).2 ⟨[7]⟩ rfl).2 (by decide)).2 [3, 4] rfl



theorem beVal_append_singleton (xs : List Nat) (b : Nat) :
    beVal (xs ++ [b]) = beVal xs * 256 + b := by
  simp [beVal, List.foldl_append]

theorem beVal_natBE (n : Nat) : beVal (natBE n) = n := by
  induction n using Nat.strong_induction_on with
  | _ n ih =>
    unfold natBE
    split
    · simp [beVal]; omega
    · rename_i hne
      rw [beVal_append_singleton,
        ih (n / 256) (Nat.div_lt_self (Nat.pos_of_ne_zero hne) (by norm_num))]
      omega

theorem natBE_cons (n : Nat) (hne : n ≠ 0) :
    ∃ d t, natBE n = d :: t ∧ d ≠ 0 := by
  induction n using Nat.strong_induction_on with
  | _ n ih =>
    unfold natBE
    rw [dif_neg hne]
    by_cases hq : n / 256 = 0
    · refine ⟨n % 256, [], ?_, ?_⟩
      · rw [show natBE (n / 256) = [] by rw [hq]; unfold natBE; simp]
        simp
      · have : n < 256 := by omega
        omega
    · obtain ⟨d, t, hdt, hd⟩ :=
        ih (n / 256) (Nat.div_lt_self (Nat.pos_of_ne_zero hne) (by norm_num)) hq
      exact ⟨d, t ++ [n % 256], by rw [hdt]; rfl, hd⟩

theorem natBE_length_le (k : Nat) : ∀ n, n < 256 ^ k → (natBE n).length ≤ k := by
  induction k with
  | zero =>
    intro n hn
    have : n = 0 := by simpa using hn
    subst this
    unfold natBE
    simp
  | succ k ih =>
    intro n hn
    unfold natBE
    split
    · simp
    · rename_i hne
      rw [List.length_append]
      have hq : n / 256 < 256 ^ k := by
        rw [Nat.div_lt_iff_lt_mul (by norm_num : 0 < 256)]
        calc n < 256 ^ (k + 1) := hn
          _ = 256 ^ k * 256 := by ring
      have := ih (n / 256) hq
      simp
      omega

theorem natBE_length_pos (n : Nat) (hne : n ≠ 0) : 1 ≤ (natBE n).length := by
  obtain ⟨d, t, hdt, _⟩ := natBE_cons n hne
  rw [hdt]; simp

theorem natBE_headD_ne_zero (n : Nat) (hne : n ≠ 0) (d : Nat) :
    (natBE n).headD d ≠ 0 := by
  obtain ⟨d0, t, hdt, hd0⟩ := natBE_cons n hne
  rw [hdt]; exact hd0

example (s rest : List Nat) (h2 : ¬s.length ≤ 55) (hlen : s.length < 256 ^ 8) :
    decStr ((0xb7 + (natBE s.length).length) :: (natBE s.length ++ (s ++ rest))) =
      some (s, rest) := by
  have hne : s.length ≠ 0 := by omega
  have hll1 : 1 ≤ (natBE s.length).length := natBE_length_pos _ hne
  have hll8 : (natBE s.length).length ≤ 8 := natBE_length_le 8 _ hlen
  simp only [decStr]
  rw [if_neg (by omega : ¬(0xb7 + (natBE s.length).length < 0x80))]
  rw [if_neg (by omega : ¬(0xb7 + (natBE s.length).length ≤ 0xb7))]
  rw [if_pos (by omega : 0xb7 + (natBE s.length).length ≤ 0xbf)]
  have hsub : 0xb7 + (natBE s.length).length - 0xb7 = (natBE s.length).length := by omega
  simp only [hsub]
  rw [if_neg (by simp [List.length_append])]
  rw [List.take_left, List.drop_left]
  rw [if_neg (by simpa using natBE_headD_ne_zero s.length hne 1)]
  rw [beVal_natBE]
  rw [if_neg (by omega : ¬(s.length ≤ 55))]
  rw [if_neg (by simp [List.length_append])]
  rw [List.take_left, List.drop_left]

theorem isSingleLow_iff (s : List Nat) :
    isSingleLow s = true ↔ ∃ b, s = [b] ∧ b < 0x80 := by
  match s with
  | [] => simp [isSingleLow]
  | [b] => simp [isSingleLow]
  | b :: c :: t => simp [isSingleLow]

theorem decStr_encStr (s rest : List Nat) (hlen : s.length < 256 ^ 8) :
    decStr (encStr s ++ rest) = some (s, rest) := by
  unfold encStr
  by_cases h1 : isSingleLow s = true
  · obtain ⟨b, hs, hb⟩ := (isSingleLow_iff s).1 h1
    subst hs
    rw [if_pos h1]
    simp only [List.cons_append, List.nil_append, decStr]
    rw [if_pos hb]
  · rw [if_neg h1]
    by_cases h2 : s.length ≤ 55
    · rw [if_pos h2]
      show decStr ((0x80 + s.length) :: (s ++ rest)) = _
      simp only [decStr]
      rw [if_neg (by omega : ¬(0x80 + s.length < 0x80))]
      rw [if_pos (by omega : 0x80 + s.length ≤ 0xb7)]
      have hsub : 0x80 + s.length - 0x80 = s.length := by omega
      simp only [hsub]
      rw [if_neg (by simp [List.length_append])]
      rw [if_neg ?canon]
      case canon =>
        intro ⟨hone, hlow⟩
        apply h1
        rw [isSingleLow_iff]
        match s, hone with
        | [b0], _ => exact ⟨b0, rfl, by simpa using hlow⟩
      rw [List.take_left, List.drop_left]
    · rw [if_neg h2]
      have hne : s.length ≠ 0 := by omega
      have hll1 : 1 ≤ (natBE s.length).length := natBE_length_pos _ hne
      have hll8 : (natBE s.length).length ≤ 8 := natBE_length_le 8 _ hlen
      show decStr ((0xb7 + (natBE s.length).length) :: (natBE s.length ++ s ++ rest)) = _
      rw [List.append_assoc]
      simp only [decStr]
      rw [if_neg (by omega : ¬(0xb7 + (natBE s.length).length < 0x80))]
      rw [if_neg (by omega : ¬(0xb7 + (natBE s.length).length ≤ 0xb7))]
      rw [if_pos (by omega : 0xb7 + (natBE s.length).length ≤ 0xbf)]
      have hsub : 0xb7 + (natBE s.length).length - 0xb7 = (natBE s.length).length := by
        omega
      simp only [hsub]
      rw [if_neg (by simp [List.length_append])]
      rw [List.take_left, List.drop_left]
      rw [if_neg (by simpa using natBE_headD_ne_zero s.length hne 1)]
      rw [beVal_natBE]
      rw [if_neg (by omega : ¬(s.length ≤ 55))]
      rw [if_neg (by simp [List.length_append])]
      rw [List.take_left, List.drop_left]

theorem encStr_length_le (s : List Nat) (hlen : s.length < 256 ^ 8) :
    (encStr s).length ≤ s.length + 9 := by
  unfold encStr
  by_cases h1 : isSingleLow s = true
  · rw [if_pos h1]
    omega
  · rw [if_neg h1]
    by_cases h2 : s.length ≤ 55
    · rw [if_pos h2]
      simp
    · rw [if_neg h2]
      have := natBE_length_le 8 s.length hlen
      simp [List.length_append]
      omega

theorem decU64_natBE (code : Nat) (h : code < 256 ^ 8) :
    decU64 (natBE code) = some code := by
  have hle := natBE_length_le 8 code h
  unfold decU64
  rw [if_neg (by omega)]
  by_cases hz : code = 0
  · subst hz
    rw [show natBE 0 = [] from by unfold natBE; simp]
  · obtain ⟨d, t, hdt, hd⟩ := natBE_cons code hz
    have hbv : beVal (d :: t) = code := by rw [← hdt, beVal_natBE]
    rw [hdt]
    simp [hd, hbv]

theorem decStr_encStr_nil (s : List Nat) (hlen : s.length < 256 ^ 8) :
    decStr (encStr s) = some (s, []) := by
  have := decStr_encStr s [] hlen
  rwa [List.append_nil] at this

theorem natBE_length_lt (n : Nat) (h : n < 256 ^ 8) : (natBE n).length < 256 ^ 8 := by
  have := natBE_length_le 8 n h
  have : (8 : Nat) < 256 ^ 8 := by norm_num
  omega

theorem decodeFields_encMsgPayload (m : message)
    (hcode : m.code < 256 ^ 8) (haddr : m.address.length = 20)
    (hmsg : m.msg.length < 256 ^ 8) (hsig : m.signature.length < 256 ^ 8)
    (hseal : m.committedSeal.length < 256 ^ 8) :
    decodeFields (encMsgPayload m) = some m := by
  have haddr8 : m.address.length < 256 ^ 8 := by rw [haddr]; norm_num
  unfold encMsgPayload decodeFields
  rw [List.append_assoc, List.append_assoc, List.append_assoc]
  rw [decStr_encStr _ _ (natBE_length_lt _ hcode)]
  dsimp only
  rw [decStr_encStr _ _ hmsg]
  dsimp only
  rw [decStr_encStr _ _ haddr8]
  dsimp only
  rw [decStr_encStr _ _ hsig]
  dsimp only
  rw [decStr_encStr_nil _ hseal]
  dsimp only
  rw [if_pos rfl, decU64_natBE _ hcode]
  dsimp only
  rw [if_pos haddr]

theorem encMsgPayload_length_lt (m : message)
    (hcode : m.code < 256 ^ 8) (haddr : m.address.length = 20)
    (hmsg : m.msg.length < 2 ^ 61) (hsig : m.signature.length < 2 ^ 61)
    (hseal : m.committedSeal.length < 2 ^ 61) :
    (encMsgPayload m).length < 256 ^ 8 := by
  have h61 : (2 : Nat) ^ 61 = 2305843009213693952 := by norm_num
  have h8 : (256 : Nat) ^ 8 = 18446744073709551616 := by norm_num
  have hb1 : (natBE m.code).length ≤ 8 := natBE_length_le 8 _ hcode
  have e1 := encStr_length_le (natBE m.code) (by omega)
  have e2 := encStr_length_le m.msg (by omega)
  have e3 := encStr_length_le m.address (by rw [haddr]; omega)
  have e4 := encStr_length_le m.signature (by omega)
  have e5 := encStr_length_le m.committedSeal (by omega)
  unfold encMsgPayload
  simp only [List.length_append]
  omega

/-- C10: decoding the RLP stream produced by EncodeRLP reproduces the
message: for every message value (within the Go types' ranges: a uint64
code, a 20-byte address, slice lengths below 2^61), DecodeRLP ∘ EncodeRLP
is the identity. -/
theorem DecodeRLP_EncodeRLP (m : message)
    (hcode : m.code < 2 ^ 64) (haddr : m.address.length = 20)
    (hmsg : m.msg.length < 2 ^ 61) (hsig : m.signature.length < 2 ^ 61)
    (hseal : m.committedSeal.length < 2 ^ 61) :
    DecodeRLP (EncodeRLP m) = some m := by
  have h64 : (2 : Nat) ^ 64 = 256 ^ 8 := by norm_num
  have h61lt : (2 : Nat) ^ 61 < 256 ^ 8 := by norm_num
  have hcode8 : m.code < 256 ^ 8 := by omega
  have hmsg8 : m.msg.length < 256 ^ 8 := by omega
  have hsig8 : m.signature.length < 256 ^ 8 := by omega
  have hseal8 : m.committedSeal.length < 256 ^ 8 := by omega
  have hfields := decodeFields_encMsgPayload m hcode8 haddr hmsg8 hsig8 hseal8
  have hp : (encMsgPayload m).length < 256 ^ 8 :=
    encMsgPayload_length_lt m hcode8 haddr hmsg hsig hseal
  unfold EncodeRLP
  by_cases h55 : (encMsgPayload m).length ≤ 55
  · rw [if_pos h55]
    simp only [DecodeRLP]
    rw [if_neg (by omega : ¬(0xc0 + (encMsgPayload m).length < 0xc0))]
    rw [if_pos (by omega : 0xc0 + (encMsgPayload m).length ≤ 0xf7)]
    have hsub : 0xc0 + (encMsgPayload m).length - 0xc0 = (encMsgPayload m).length := by
      omega
    simp only [hsub]
    simpa using hfields
  · rw [if_neg h55]
    have hne : (encMsgPayload m).length ≠ 0 := by omega
    have hll1 : 1 ≤ (natBE (encMsgPayload m).length).length := natBE_length_pos _ hne
    have hll8 : (natBE (encMsgPayload m).length).length ≤ 8 := natBE_length_le 8 _ hp
    simp only [DecodeRLP]
    rw [if_neg (by omega : ¬(0xf7 + (natBE (encMsgPayload m).length).length < 0xc0))]
    rw [if_neg (by omega : ¬(0xf7 + (natBE (encMsgPayload m).length).length ≤ 0xf7))]
    have hsub : 0xf7 + (natBE (encMsgPayload m).length).length - 0xf7 =
        (natBE (encMsgPayload m).length).length := by omega
    simp only [hsub]
    rw [if_neg (by simp [List.length_append])]
    rw [List.take_left, List.drop_left]
    rw [if_neg (by simpa using natBE_headD_ne_zero (encMsgPayload m).length hne 1)]
    rw [beVal_natBE]
    rw [if_neg (by omega : ¬((encMsgPayload m).length ≤ 55))]
    simpa using hfields

/-- A concrete message exercising the codec round trip. -/
def mWitness : message := ⟨1, [0xde, 0xad], List.replicate 20 3, [5], []⟩

theorem DecodeRLP_EncodeRLP_witness :
    DecodeRLP (EncodeRLP mWitness) = some mWitness :=
  DecodeRLP_EncodeRLP mWitness (by norm_num [mWitness]) (by decide)
    (by norm_num [mWitness]) (by norm_num [mWitness]) (by norm_num [mWitness])
